import Mathlib

/-!
Shallow embedding of `src/py-stockfish/models.ts` (the stockfish-bun client).

JS objects holding engine parameters are modelled as insertion-ordered
association lists (`ParamObj`); JS runtime values as `JSValue` (with a
constructor for `undefined`); a thrown exception as an `Option`/error component of the
result.  Worker-side state (the engine process) is modelled by explicit
oracle parameters where an operation's control flow depends on engine
answers.
-/

namespace StockfishBun

/-- A JS runtime value as it appears in the parameter dictionaries:
`typeof` distinguishes "string", "number", "boolean" and "undefined".
Engine parameters only ever hold integral numbers, so `num` carries `Int`. -/
inductive JSValue where
  | str (s : String)
  | num (n : Int)
  | bool (b : Bool)
  | undefined
deriving DecidableEq

/-- `typeof v` as a string, as used by `#validate_param_value`. -/
def JSValue.typeofStr : JSValue → String
  | .str _ => "string"
  | .num _ => "number"
  | .bool _ => "boolean"
  | .undefined => "undefined"

/-- A JS object with string keys, in property-insertion order
(JS preserves insertion order for non-index string keys). -/
abbrev ParamObj := List (String × JSValue)

/-- The JS `in` operator / `Object.hasOwn`. -/
def objHas (o : ParamObj) (k : String) : Bool :=
  o.any (fun kv => kv.1 == k)

/-- Property read `o[k]`, yielding `undefined` when absent. -/
def objGetD (o : ParamObj) (k : String) : JSValue :=
  match o.find? (fun kv => kv.1 == k) with
  | some kv => kv.2
  | none => .undefined

/-- Property write `o[k] = v` (`Object.assign(o, {k: v})`): updates the
existing property in place, else appends a new property at the end. -/
def objSet : ParamObj → String → JSValue → ParamObj
  | [], k, v => [(k, v)]
  | kv :: rest, k, v =>
    if kv.1 == k then (k, v) :: rest else kv :: objSet rest k v

/-- The JS `delete o[k]`. -/
def objDelete (o : ParamObj) (k : String) : ParamObj :=
  o.filter (fun kv => !(kv.1 == k))

/-- `Stockfish._PARAM_RESTRICTIONS`: required `typeof` and, for numbers,
the inclusive minimum and maximum. -/
def PARAM_RESTRICTIONS : List (String × (String × Option Int × Option Int)) :=
  [("Debug Log File", ("string", none, none)),
   ("Threads", ("number", some 1, some 1024)),
   ("Hash", ("number", some 1, some 2048)),
   ("Ponder", ("boolean", none, none)),
   ("MultiPV", ("number", some 1, some 500)),
   ("Skill Level", ("number", some 0, some 20)),
   ("Move Overhead", ("number", some 0, some 5000)),
   ("UCI_Chess960", ("boolean", none, none)),
   ("UCI_LimitStrength", ("boolean", none, none)),
   ("UCI_Elo", ("number", some 1320, some 3190)),
   ("UCI_ShowWDL", ("boolean", none, none))]

/-- `Stockfish.DEFAULT_STOCKFISH_PARAMS`, in source property order. -/
def DEFAULT_STOCKFISH_PARAMS : ParamObj :=
  [("Debug Log File", .str ""),
   ("Threads", .num 1),
   ("Ponder", .bool false),
   ("Hash", .num 16),
   ("MultiPV", .num 1),
   ("Skill Level", .num 20),
   ("Move Overhead", .num 10),
   ("UCI_Chess960", .bool false),
   ("UCI_LimitStrength", .bool false),
   ("UCI_Elo", .num 1350),
   ("UCI_ShowWDL", .bool false)]

/-- The exceptions `update_engine_parameters` / `#validate_param_value`
can throw. -/
inductive ParamError where
  | unknownKey (k : String)
  | unsupported (k : String)
  | wrongType (v : JSValue) (required : String)
  | belowMin (v : JSValue) (k : String) (m : Int)
  | aboveMax (v : JSValue) (k : String) (m : Int)
deriving DecidableEq

/-- `value < minimum` where `typeof value === "number"` (a non-number never
satisfies the bound test). -/
def numValLt (v : JSValue) (m : Int) : Bool :=
  match v with
  | .num n => n < m
  | _ => false

/-- `value > maximum` where `typeof value === "number"`. -/
def numValGt (v : JSValue) (m : Int) : Bool :=
  match v with
  | .num n => m < n
  | _ => false

/-- `Stockfish.#validate_param_value`: membership in `_PARAM_RESTRICTIONS`,
then `typeof`, then the two bound checks, throwing on the first violation. -/
def validate_param_value (name : String) (v : JSValue) : Option ParamError :=
  match PARAM_RESTRICTIONS.find? (fun kv => kv.1 == name) with
  | none => some (.unsupported name)
  | some (_, required_type, minimum, maximum) =>
    if v.typeofStr ≠ required_type then some (.wrongType v required_type)
    else if minimum.any (fun m => numValLt v m) then
      some (.belowMin v name (minimum.getD 0))
    else if maximum.any (fun m => numValGt v m) then
      some (.aboveMax v name (maximum.getD 0))
    else none

/-- One iteration of the validation loop at the top of
`update_engine_parameters`: the unknown-key test (guarded by the live set
being non-empty) followed by `#validate_param_value`. -/
def check_update_key (live : ParamObj) (k : String) (v : JSValue) :
    Option ParamError :=
  if live.length > 0 && !objHas live k then some (.unknownKey k)
  else validate_param_value k v

/-- The `for (const key in new_param_values)` validation loop, failing at the
first offending entry (in insertion order). -/
def validate_update_batch (live : ParamObj) : ParamObj → Option ParamError
  | [] => none
  | (k, v) :: rest =>
    match check_update_key live k v with
    | some e => some e
    | none => validate_update_batch live rest

/-- The `UCI_LimitStrength` inference step of `update_engine_parameters`:
when exactly one of `Skill Level` / `UCI_Elo` is supplied and
`UCI_LimitStrength` is not, the implied `UCI_LimitStrength` value is
assigned into the batch (appended, since the key was absent). -/
def inject_limit_strength (batch : ParamObj) : ParamObj :=
  if (objHas batch "Skill Level" != objHas batch "UCI_Elo")
      && !objHas batch "UCI_LimitStrength" then
    if objHas batch "Skill Level" then
      objSet batch "UCI_LimitStrength" (.bool false)
    else if objHas batch "UCI_Elo" then
      objSet batch "UCI_LimitStrength" (.bool true)
    else batch
  else batch

/-- The `Threads` step of `update_engine_parameters`: when `Threads` is in
the batch, delete `Threads` (and `Hash` when present), then re-assign
`Threads` and then `Hash` — re-insertion places both at the end of the
property order, `Threads` immediately before `Hash`.  `Hash`'s value is
taken from the batch when present, else from the live set. -/
def reorder_threads_hash (live batch : ParamObj) : ParamObj :=
  if objHas batch "Threads" then
    let threads_value := objGetD batch "Threads"
    let p := objDelete batch "Threads"
    let hash_value :=
      if objHas p "Hash" then objGetD p "Hash" else objGetD live "Hash"
    let p := if objHas p "Hash" then objDelete p "Hash" else p
    objSet (objSet p "Threads" threads_value) "Hash" hash_value
  else batch

/-- The `for (const [name, value] of Object.entries(...)) await
this._set_option(name, value)` loop.  Each `_set_option` re-validates,
sends one `setoption` write to the worker, then merges the key into the
live set; a validation failure aborts the loop, keeping the writes already
sent and the merges already done.  Returns (writes sent, resulting live
set, error if thrown). -/
def run_set_options (live : ParamObj) :
    List (String × JSValue) →
      List (String × JSValue) × ParamObj × Option ParamError
  | [] => ([], live, none)
  | kv :: rest =>
    match validate_param_value kv.1 kv.2 with
    | some e => ([], live, some e)
    | none =>
      let r := run_set_options (objSet live kv.1 kv.2) rest
      (kv :: r.1, r.2)

/-- `Stockfish.update_engine_parameters(partial)`: validate every entry of
the batch first, then apply the `UCI_LimitStrength` inference and the
`Threads`/`Hash` reordering, then issue one `setoption` write per entry in
the resolved order.  Returns (configuration writes sent in order, the
resulting live parameter set, error if thrown).  The trailing re-issue of
the current position is not a configuration write and is outside this
model. -/
def update_engine_parameters (live batch : ParamObj) :
    List (String × JSValue) × ParamObj × Option ParamError :=
  match validate_update_batch live batch with
  | some e => ([], live, some e)
  | none =>
    run_set_options live (reorder_threads_hash live (inject_limit_strength batch))

/-! ### JS string primitives -/

/-- The character class `\s` of JS regular expressions (also the separator
class of `String.prototype.split(/\s+/)`): ASCII whitespace, NBSP, the
Unicode space separators, the line separators and the BOM. -/
def jsIsSpace (c : Char) : Bool :=
  c.toNat = 9 || c.toNat = 10 || c.toNat = 11 || c.toNat = 12 ||
  c.toNat = 13 || c.toNat = 32 || c.toNat = 0xa0 || c.toNat = 0x1680 ||
  (0x2000 ≤ c.toNat && c.toNat ≤ 0x200a) || c.toNat = 0x2028 ||
  c.toNat = 0x2029 || c.toNat = 0x202f || c.toNat = 0x205f ||
  c.toNat = 0x3000 || c.toNat = 0xfeff

/-- The character class `\d` of JS regular expressions: exactly `[0-9]`. -/
def jsIsDigit (c : Char) : Bool :=
  48 ≤ c.toNat && c.toNat ≤ 57

/-- A hexadecimal digit, as accepted by `parseInt` after a `0x` prefix. -/
def jsIsHexDigit (c : Char) : Bool :=
  jsIsDigit c || (97 ≤ c.toNat && c.toNat ≤ 102) ||
    (65 ≤ c.toNat && c.toNat ≤ 70)

/-- `s.split(/\s+/)`: cut at maximal whitespace runs; a leading run yields a
leading empty field and a trailing run a trailing empty field (JS `split`
keeps both); the split of `""` is `[""]`.  The flag records whether the
previous character belonged to the current separator run. -/
def jsSplitWsAux : List Char → Bool → List Char → List String
  | [], _, cur => [String.mk cur.reverse]
  | c :: rest, lastWasSpace, cur =>
    if jsIsSpace c then
      if lastWasSpace then jsSplitWsAux rest true cur
      else String.mk cur.reverse :: jsSplitWsAux rest true []
    else jsSplitWsAux rest false (c :: cur)

/-- `s.split(/\s+/)`. -/
def jsSplitWs (s : String) : List String :=
  jsSplitWsAux s.toList false []

/-- Helper for `jsSplitOnChar`: split at every occurrence of `sep`. -/
def splitOnCharAux (sep : Char) : List Char → List Char → List String
  | [], cur => [String.mk cur.reverse]
  | c :: rest, cur =>
    if c == sep then String.mk cur.reverse :: splitOnCharAux sep rest []
    else splitOnCharAux sep rest (c :: cur)

/-- `s.split(sep)` for a one-character separator (the only splits the
source performs with a string separator: `"-"`, `"."`, `"/"`, `":"`):
every occurrence of the separator cuts, empty fields are kept, and the
split of `""` is `[""]`. -/
def jsSplitOnChar (s : String) (sep : Char) : List String :=
  splitOnCharAux sep s.toList []

/-- `s.startsWith(pre)`. -/
def jsStartsWith (s pre : String) : Bool :=
  s.toList.take pre.toList.length == pre.toList

/-- `s.slice(a, b)` for the non-negative constant index pairs the source
uses (`slice(0,2)`, `slice(2,4)`, …). -/
def jsSlice (s : String) (a b : Nat) : String :=
  String.mk ((s.toList.drop a).take (b - a))

/-- Decimal value of a digit run. -/
def natOfDigits (ds : List Char) : Nat :=
  ds.foldl (fun acc c => 10 * acc + (c.toNat - 48)) 0

/-- Hexadecimal value of a hex-digit run. -/
def natOfHexDigits (ds : List Char) : Nat :=
  ds.foldl
    (fun acc c =>
      16 * acc +
        (if jsIsDigit c then c.toNat - 48
         else if 97 ≤ c.toNat then c.toNat - 87
         else c.toNat - 55))
    0

/-- `parseInt(s)` with no radix argument: skip leading whitespace, read an
optional sign, then either a `0x`/`0X` hexadecimal run or a maximal decimal
digit run; `none` models the result `NaN` (empty digit run).  Following JS,
`parseInt` never throws. -/
def jsParseInt (s : String) : Option Int :=
  let t := s.toList.dropWhile jsIsSpace
  let sign : Int := if t.head? = some '-' then -1 else 1
  let t := if t.head? = some '-' || t.head? = some '+' then t.tail else t
  if t.head? = some '0' && (t.tail.head? = some 'x' || t.tail.head? = some 'X')
  then
    let ds := t.tail.tail.takeWhile jsIsHexDigit
    if ds.isEmpty then none else some (sign * natOfHexDigits ds)
  else
    let ds := t.takeWhile jsIsDigit
    if ds.isEmpty then none else some (sign * natOfDigits ds)

/-- Number-to-string coercion of an optional numeric value inside a JS
template literal: `NaN` prints as "NaN". -/
def jsNumToString (o : Option Int) : String :=
  match o with
  | some n => toString n
  | none => "NaN"

/-! ### Position and move facade -/

/-- `Stockfish.STARTING_POSITION_FEN`. -/
def STARTING_POSITION_FEN : String :=
  "rnbqkbnr/pppppppp/8/8/8/8/PPPPPPPP/RNBQKBNR w KQkq - 0 1"

/-- `Stockfish.make_moves_from_current_position(moves)`.  The worker is
modelled by two oracles: `ok fen move` is the `is_move_correct` probe
(a one-ply search restricted to `move` returning that move), and
`play fen move` is the position reached by
`position fen (current fen) moves (move)`.  The loop validates each move at
the position reached so far; the first failing move raises
`Cannot make move: (move)` (returned as the `some` component) and the
position stays as it was just before that move — the moves already applied
are not rolled back.  An empty list returns at once. -/
def make_moves_from_current_position (ok : String → String → Bool)
    (play : String → String → String) (fen : String) :
    List String → String × Option String
  | [] => (fen, none)
  | move :: rest =>
    if ok fen move then
      make_moves_from_current_position ok play (play fen move) rest
    else (fen, some ("Cannot make move: " ++ move))

/-- The position reached by applying a move list via the worker oracle. -/
def playAll (play : String → String → String) (fen : String)
    (moves : List String) : String :=
  moves.foldl play fen

/-- Every move of the list is accepted by the `is_move_correct` probe at the
position reached so far. -/
def legalPrefix (ok : String → String → Bool)
    (play : String → String → String) (fen : String) : List String → Bool
  | [] => true
  | move :: rest => ok fen move && legalPrefix ok play (play fen move) rest

/-! ### Capture classification -/

/-- The `Piece` enum of the source. -/
inductive Piece where
  | WHITE_PAWN | BLACK_PAWN | WHITE_KNIGHT | BLACK_KNIGHT
  | WHITE_BISHOP | BLACK_BISHOP | WHITE_ROOK | BLACK_ROOK
  | WHITE_QUEEN | BLACK_QUEEN | WHITE_KING | BLACK_KING
deriving DecidableEq

/-- The `Capture` enum of the source. -/
inductive Capture where
  | DIRECT_CAPTURE | EN_PASSANT | NO_CAPTURE
deriving DecidableEq

/-- The source's Chess960 castling test is
`castling_pieces.includes([starting_square_piece, ending_square_piece])`.
`Array.prototype.includes` uses SameValueZero, which on arrays is reference
equality; the freshly allocated two-element array is never reference-equal
to either array literal stored in `castling_pieces`, so the test evaluates
to `false` on every input. -/
def castling_pieces_includes_pair (_starting _ending : Option Piece) : Bool :=
  false

/-- `Stockfish.will_move_be_a_capture(move_value)` after its
`is_move_correct` precondition has passed.  `starting_square_piece` and
`ending_square_piece` are the two `get_what_is_on_square` board probes
(before the move), `move_value` the proposed move, `fen` the current
position as reported by `get_fen_position`, and `chess960` the live
`UCI_Chess960` parameter. -/
def will_move_be_a_capture (chess960 : Bool)
    (starting_square_piece ending_square_piece : Option Piece)
    (move_value fen : String) : Capture :=
  match ending_square_piece with
  | some _ =>
    if !chess960 then Capture.DIRECT_CAPTURE
    else if castling_pieces_includes_pair starting_square_piece
        ending_square_piece then Capture.NO_CAPTURE
    else Capture.DIRECT_CAPTURE
  | none =>
    match (jsSplitWs fen).get? 3 with
    | some ep_square =>
      if jsSlice move_value 2 4 = ep_square
          && (starting_square_piece = some Piece.WHITE_PAWN
              || starting_square_piece = some Piece.BLACK_PAWN) then
        Capture.EN_PASSANT
      else Capture.NO_CAPTURE
    | none => Capture.NO_CAPTURE

/-- The classification the source's comment ("Check for Chess960
castling:"), the ported test suite and the spec describe: under Chess960 a
same-colour king/rook mover/occupant pair is not a capture.  Kept for
comparison with `will_move_be_a_capture`. -/
def will_move_be_a_capture_intended (chess960 : Bool)
    (starting_square_piece ending_square_piece : Option Piece)
    (move_value fen : String) : Capture :=
  match ending_square_piece with
  | some _ =>
    if !chess960 then Capture.DIRECT_CAPTURE
    else if (starting_square_piece = some Piece.WHITE_KING
          && ending_square_piece = some Piece.WHITE_ROOK)
        || (starting_square_piece = some Piece.BLACK_KING
          && ending_square_piece = some Piece.BLACK_ROOK) then
      Capture.NO_CAPTURE
    else Capture.DIRECT_CAPTURE
  | none =>
    match (jsSplitWs fen).get? 3 with
    | some ep_square =>
      if jsSlice move_value 2 4 = ep_square
          && (starting_square_piece = some Piece.WHITE_PAWN
              || starting_square_piece = some Piece.BLACK_PAWN) then
        Capture.EN_PASSANT
      else Capture.NO_CAPTURE
    | none => Capture.NO_CAPTURE

/-! ### Evaluation perspective -/

/-- `fen.includes("w")`: a single-character substring test. -/
def fen_includes_w (fen : String) : Bool :=
  fen.toList.contains 'w'

/-- The `compare` multiplier of `get_evaluation`: `+1` when turn
perspective is selected or the FEN contains `w`, else `-1`; computed once
per call. -/
def evaluation_perspective (turn_perspective : Bool) (fen : String) : Int :=
  if turn_perspective || fen_includes_w fen then 1 else -1

/-- The numeric value `get_evaluation` returns: the parsed score token
times the perspective multiplier. -/
def get_evaluation_value (turn_perspective : Bool) (fen : String)
    (raw : Int) : Int :=
  raw * evaluation_perspective turn_perspective fen

/-! ### Version parser -/

/-- `Stockfish._RELEASES`: release version keys and their release dates. -/
def RELEASES : List (String × String) :=
  [("17.1", "2025-03-30"),
   ("17.0", "2024-09-06"),
   ("16.1", "2024-02-24"),
   ("16.0", "2023-06-30")]

/-- The `_version` record.  `major`/`minor` are `parseInt` results (`none`
models `NaN`); `patch`/`sha` may be `undefined` when the indexed split
component is missing. -/
structure StockfishVersion where
  major : Option Int
  minor : Option Int
  patch : Option String
  sha : Option String
  is_dev_build : Bool
  text : String
deriving DecidableEq

/-- A `YYYY-M-D` date string as a (year, month, day) triple; `none` models
an invalid date.  `new Date(...)` comparisons in the source are modelled as
lexicographic comparison of these triples. -/
def dateOfString (s : String) : Option (Int × Int × Int) :=
  match jsSplitOnChar s '-' with
  | [y, m, d] =>
    match jsParseInt y, jsParseInt m, jsParseInt d with
    | some a, some b, some c => some (a, b, c)
    | _, _, _ => none
  | _ => none

/-- `d1 <= d2` on dates; any comparison against an invalid date is false. -/
def dateLe (d1 d2 : Option (Int × Int × Int)) : Bool :=
  match d1, d2 with
  | some (y1, m1, dd1), some (y2, m2, dd2) =>
    y1 < y2 || (y1 = y2 && (m1 < m2 || (m1 = m2 && dd1 ≤ dd2)))
  | _, _ => false

/-- `d1 < d2` on dates; any comparison against an invalid date is false. -/
def dateLt (d1 d2 : Option (Int × Int × Int)) : Bool :=
  match d1, d2 with
  | some (y1, m1, dd1), some (y2, m2, dd2) =>
    y1 < y2 || (y1 = y2 && (m1 < m2 || (m1 = m2 && dd1 < dd2)))
  | _, _ => false

/-- `Stockfish._get_stockfish_version_from_build_date`: the release key
with the latest release date on or before the build date; `none` models the
thrown error when no release qualifies. -/
def get_stockfish_version_from_build_date (date_string : String) :
    Option String :=
  let d := dateOfString date_string
  (RELEASES.foldl
    (fun best kv =>
      if dateLe (dateOfString kv.2) d then
        match best with
        | none => some kv
        | some b =>
          if dateLt (dateOfString b.2) (dateOfString kv.2) then some kv
          else some b
      else best)
    none).map Prod.fst

/-- `Stockfish.#parse_stockfish_version(version_text)`.  `none` models the
outer catch re-throwing (reachable only through the build-date lookup).
The final `minor` assignment is `parseInt(text.split(".")[1]!)`: when the
token has no `.`, the indexed component is `undefined` and
`parseInt(undefined)` is `NaN` — `parseInt` does not throw, so the inner
catch that would set `minor = 0` never runs. -/
def parse_stockfish_version (version_text : String) :
    Option StockfishVersion :=
  let step1 :
      Option (Bool × Option String × Option String × String) :=
    if jsStartsWith version_text "dev-" then
      let parts := jsSplitOnChar version_text '-' 
      let build_date := parts.getD 1 ""
      let date_string :=
        jsNumToString (jsParseInt (jsSlice build_date 0 4)) ++ "-" ++
        jsNumToString (jsParseInt (jsSlice build_date 4 6)) ++ "-" ++
        jsNumToString (jsParseInt (jsSlice build_date 6 8))
      match get_stockfish_version_from_build_date date_string with
      | some t => some (true, parts.get? 1, parts.get? 2, t)
      | none => none
    else some (false, some "", some "", version_text)
  match step1 with
  | none => none
  | some (is_dev, patch, sha, text) =>
    let step2 :
        Option (Bool × Option String × Option String × String) :=
      if text.length = 6 then
        let date_string :=
          "20" ++ jsSlice text 4 6 ++ "-" ++ jsSlice text 2 4 ++ "-" ++
          jsSlice text 0 2
        match get_stockfish_version_from_build_date date_string with
        | some t => some (true, some text, sha, t)
        | none => none
      else some (is_dev, patch, sha, text)
    match step2 with
    | none => none
    | some (is_dev, patch, sha, text) =>
      let major := jsParseInt ((jsSplitOnChar text '.').getD 0 "")
      let minor :=
        match (jsSplitOnChar text '.').get? 1 with
        | some s => jsParseInt s
        | none => none
      some ⟨major, minor, patch, sha, is_dev, text⟩

/-! ### FEN syntax validator -/

/-- The board-field character class `[rnbqkpRNBQKP1-8]` of the FEN regex;
the digit range coincides with the `"1" <= c && c <= "8"` test of the rank
loop. -/
def isBoardChar (c : Char) : Bool :=
  (['r', 'n', 'b', 'q', 'k', 'p', 'R', 'N', 'B', 'Q', 'K', 'P'].contains c)
    || (49 ≤ c.toNat && c.toNat ≤ 56)

/-- A digit `1`–`8` inside a board rank. -/
def isFenDigit (c : Char) : Bool :=
  49 ≤ c.toNat && c.toNat ≤ 56

/-- `Stockfish._PIECE_CHARS` membership. -/
def isPieceChar (c : Char) : Bool :=
  ['P', 'N', 'B', 'R', 'Q', 'K', 'p', 'n', 'b', 'r', 'q', 'k'].contains c

/-- Match one character satisfying `p`. -/
def matchChar (p : Char → Bool) : List Char → Option (List Char)
  | c :: rest => if p c then some rest else none
  | [] => none

/-- Match a non-empty maximal run of characters satisfying `p` (the run's
class never contains the character required next, so maximal munch agrees
with the regex's backtracking search). -/
def matchRun (p : Char → Bool) (l : List Char) : Option (List Char) :=
  let s := l.span p
  if s.1.isEmpty then none else some s.2

/-- Match `[rnbqkpRNBQKP1-8]+/` — one slash-terminated rank. -/
def matchRankSlash (l : List Char) : Option (List Char) :=
  match matchRun isBoardChar l with
  | some ('/' :: rest) => some rest
  | _ => none

/-- Match `([rnbqkpRNBQKP1-8]+/){n}`. -/
def matchNRanks : Nat → List Char → Option (List Char)
  | 0, l => some l
  | n + 1, l =>
    match matchRankSlash l with
    | some rest => matchNRanks n rest
    | none => none

/-- Match `(-|[K|Q|k|q]{1,4})`: a literal `-`, or a run of one to four
characters of the class (which contains the literal `|`); a longer run
cannot be completed because the following `\s` never lies in the class. -/
def matchCastlingField : List Char → Option (List Char)
  | '-' :: rest => some rest
  | l =>
    let s := l.span (fun c => ['K', '|', 'Q', 'k', 'q'].contains c)
    if 1 ≤ s.1.length && s.1.length ≤ 4 then some s.2 else none

/-- Match `(-|[a-h][1-8])`. -/
def matchEpField : List Char → Option (List Char)
  | '-' :: rest => some rest
  | f :: r :: rest =>
    if (97 ≤ f.toNat && f.toNat ≤ 104) && (49 ≤ r.toNat && r.toNat ≤ 56)
    then some rest else none
  | _ => none

/-- The anchored FEN regex of `is_fen_syntax_valid`:
`\s*^(((?:[rnbqkpRNBQKP1-8]+\/){7})[rnbqkpRNBQKP1-8]+)\s([b|w])\s(-|[K|Q|k|q]{1,4})\s(-|[a-h][1-8])\s(\d+\s\d+)$`.
Without the multiline flag `^` only matches at the string start (forcing
the leading `\s*` to be empty) and `$` only at its end; every alternation
and repetition is deterministic, so the matcher needs no backtracking. -/
def fen_regex_match (fen : String) : Bool :=
  let r : Option (List Char) := do
    let l ← matchNRanks 7 fen.toList
    let l ← matchRun isBoardChar l
    let l ← matchChar jsIsSpace l
    let l ← matchChar (fun c => ['b', '|', 'w'].contains c) l
    let l ← matchChar jsIsSpace l
    let l ← matchCastlingField l
    let l ← matchChar jsIsSpace l
    let l ← matchEpField l
    let l ← matchChar jsIsSpace l
    let l ← matchRun jsIsDigit l
    let l ← matchChar jsIsSpace l
    matchRun jsIsDigit l
  r = some []

/-- The rank loop of `is_fen_syntax_valid`: walk one rank accumulating the
square count, failing on an invalid character or two adjacent digits;
`prev` records whether the previous character was a digit. -/
def rank_scan : List Char → Bool → Nat → Option Nat
  | [], _, sum => some sum
  | c :: rest, prev, sum =>
    if isFenDigit c then
      if prev then none
      else rank_scan rest true (sum + (c.toNat - 48))
    else if isPieceChar c then rank_scan rest false (sum + 1)
    else none

/-- One rank passes the loop: the scan succeeds and the square count is 8. -/
def rank_ok (part : String) : Bool :=
  match rank_scan part.toList false 0 with
  | some s => s == 8
  | none => false

/-- `s.includes(c)` for a single-character needle. -/
def stringIncludesChar (s : String) (c : Char) : Bool :=
  s.toList.contains c

/-- The `/^\d+$/` test. -/
def isDigitString (s : String) : Bool :=
  !s.toList.isEmpty && s.toList.all jsIsDigit

/-- `parseInt(halfmove) >= parseInt(fullmove) * 2`; a comparison against
`NaN` is false in JS. -/
def halfmoveGeTwiceFullmove (halfmove fullmove : String) : Bool :=
  match jsParseInt halfmove, jsParseInt fullmove with
  | some h, some f => h ≥ f * 2
  | _, _ => false

/-- `Stockfish.is_fen_syntax_valid(fen)`: the anchored regex, then the
six-field / eight-rank / kings-present / numeric-counters / halfmove-bound
checks (short-circuit disjunction, in source order), then the per-rank
loop. -/
def is_fen_syntax_valid (fen : String) : Bool :=
  if !fen_regex_match fen then false
  else
    let fen_fields := jsSplitWs fen
    if fen_fields.length != 6
        || (jsSplitOnChar (fen_fields.getD 0 "") '/').length != 8
        || !stringIncludesChar (fen_fields.getD 0 "") 'K'
        || !stringIncludesChar (fen_fields.getD 0 "") 'k'
        || !isDigitString (fen_fields.getD 4 "")
        || !isDigitString (fen_fields.getD 5 "")
        || halfmoveGeTwiceFullmove (fen_fields.getD 4 "") (fen_fields.getD 5 "")
    then false
    else (jsSplitOnChar (fen_fields.getD 0 "") '/').all rank_ok

/-- Square count of a rank, counting a digit as that many empty squares
and any other (piece) character as one square. -/
def squareCount (part : List Char) : Nat :=
  (part.map (fun c => if isFenDigit c then c.toNat - 48 else 1)).sum

/-- No two adjacent digits, starting with `prev` recording whether the
character before the list was a digit. -/
def noAdjacentDigitsFrom : Bool → List Char → Bool
  | _, [] => true
  | prev, c :: rest =>
    if isFenDigit c then !prev && noAdjacentDigitsFrom true rest
    else noAdjacentDigitsFrom false rest

/-! ### Object-model lemmas -/

theorem objHas_iff_mem (o : ParamObj) (k : String) :
    objHas o k = true ↔ k ∈ o.map Prod.fst := by
  simp only [objHas, List.any_eq_true, List.mem_map, beq_iff_eq]

theorem objHas_eq_false_iff (o : ParamObj) (k : String) :
    objHas o k = false ↔ k ∉ o.map Prod.fst := by
  rw [← Bool.not_eq_true, not_iff_not]
  exact objHas_iff_mem o k

theorem objHas_objSet (o : ParamObj) (k k1 : String) (v : JSValue) :
    objHas (objSet o k v) k1 = ((k == k1) || objHas o k1) := by
  induction o with
  | nil => simp [objSet, objHas]
  | cons kv o ih =>
    by_cases hk : kv.1 == k
    · have hkk : kv.1 = k := by simpa using hk
      subst hkk
      simp only [objSet, beq_self_eq_true, if_true, objHas, List.any_cons]
      cases kv.1 == k1 <;> simp
    · simp only [objSet, hk, if_false, Bool.false_eq_true, objHas,
        List.any_cons]
      simp only [objHas] at ih
      rw [ih]
      cases kv.1 == k1 <;> cases k == k1 <;> simp

theorem objSet_append (o : ParamObj) (k : String) (v : JSValue) :
    objHas o k = false → objSet o k v = o ++ [(k, v)] := by
  induction o with
  | nil => intro _; simp [objSet]
  | cons kv o ih =>
    intro h
    have h1 : (kv.1 == k) = false ∧ objHas o k = false := by
      simpa [objHas] using h
    simp [objSet, h1.1, ih h1.2]

theorem mem_objSet {kv1 : String × JSValue} (o : ParamObj) (k : String)
    (v : JSValue) (h : kv1 ∈ objSet o k v) : kv1 ∈ o ∨ kv1 = (k, v) := by
  induction o with
  | nil => simp [objSet] at h; simp [h]
  | cons kv o ih =>
    by_cases hk : kv.1 == k
    · simp only [objSet, hk, if_true, List.mem_cons] at h
      rcases h with h | h
      · right; exact h
      · left; exact List.mem_cons_of_mem _ h
    · simp only [objSet, hk, if_false, Bool.false_eq_true,
        List.mem_cons] at h
      rcases h with h | h
      · left; simp [h]
      · rcases ih h with h1 | h1
        · left; exact List.mem_cons_of_mem _ h1
        · right; exact h1

theorem objGetD_mem (o : ParamObj) (k : String) :
    objHas o k = true → (k, objGetD o k) ∈ o := by
  induction o with
  | nil => intro h; simp [objHas] at h
  | cons kv o ih =>
    intro h
    by_cases hk : kv.1 == k
    · have hk1 : kv.1 = k := by simpa using hk
      subst hk1
      simp only [objGetD, List.find?_cons, hk]
      simp
    · simp only [objHas, List.any_cons, hk, Bool.false_or] at h
      have := ih h
      simp only [objGetD, List.find?_cons, hk] at *
      exact List.mem_cons_of_mem _ this

theorem objHas_objDelete_self (o : ParamObj) (k : String) :
    objHas (objDelete o k) k = false := by
  rw [objHas_eq_false_iff]
  intro hmem
  simp only [objDelete, List.mem_map, List.mem_filter] at hmem
  obtain ⟨kv, ⟨_, hkv⟩, hfst⟩ := hmem
  simp [hfst] at hkv

theorem objHas_objDelete_ne (o : ParamObj) (k k1 : String) (h : k1 ≠ k) :
    objHas (objDelete o k) k1 = objHas o k1 := by
  induction o with
  | nil => simp [objDelete]
  | cons kv o ih =>
    simp only [objDelete, List.filter_cons] at *
    by_cases hk : kv.1 == k
    · have hk1 : kv.1 = k := by simpa using hk
      have hne : (kv.1 == k1) = false := by
        simp only [hk1, beq_eq_false_iff_ne, ne_eq]
        exact fun hx => h hx.symm
      simp only [hk, Bool.not_true, Bool.false_eq_true, if_false]
      simp only [objHas, List.any_cons, hne, Bool.false_or]
      exact ih
    · have hkb : (!(kv.1 == k)) = true := by simp [hk]
      simp only [hkb, if_true]
      simp only [objHas, List.any_cons]
      simp only [objHas] at ih
      rw [ih]

theorem mem_objDelete {kv : String × JSValue} (o : ParamObj) (k : String)
    (h : kv ∈ objDelete o k) : kv ∈ o :=
  List.mem_of_mem_filter h

theorem objDelete_of_not_has (o : ParamObj) (k : String)
    (h : objHas o k = false) : objDelete o k = o := by
  simp only [objHas, List.any_eq_false] at h
  exact List.filter_eq_self.mpr fun kv hkv => by simpa using h kv hkv

theorem objHas_append (o1 o2 : ParamObj) (k : String) :
    objHas (o1 ++ o2) k = (objHas o1 k || objHas o2 k) :=
  List.any_append

theorem objGetD_objSet_self (o : ParamObj) (k : String) (v : JSValue) :
    objGetD (objSet o k v) k = v := by
  induction o with
  | nil => simp [objSet, objGetD, List.find?_cons]
  | cons kv o ih =>
    by_cases hk : kv.1 == k
    · simp [objSet, hk, objGetD, List.find?_cons]
    · simp only [objSet, hk, if_false, Bool.false_eq_true]
      simpa [objGetD, List.find?_cons, hk] using ih

theorem objGetD_objSet_ne (o : ParamObj) (k k1 : String) (v : JSValue)
    (h : k1 ≠ k) : objGetD (objSet o k v) k1 = objGetD o k1 := by
  have hkk1 : (k == k1) = false := by
    simp only [beq_eq_false_iff_ne, ne_eq]
    exact fun hx => h hx.symm
  induction o with
  | nil => simp [objSet, objGetD, List.find?_cons, hkk1]
  | cons kv o ih =>
    by_cases hk : kv.1 == k
    · have hk1 : kv.1 = k := by simpa using hk
      have hne : (kv.1 == k1) = false := by rw [hk1]; exact hkk1
      simp only [objSet, hk, if_true]
      simp [objGetD, List.find?_cons, hkk1, hne]
    · simp only [objSet, hk, if_false, Bool.false_eq_true]
      by_cases h1 : kv.1 == k1
      · simp [objGetD, List.find?_cons, h1]
      · simpa [objGetD, List.find?_cons, h1] using ih

/-! ### Update-pipeline lemmas -/

theorem check_update_key_none_validate (live : ParamObj) (k : String)
    (v : JSValue) (h : check_update_key live k v = none) :
    validate_param_value k v = none := by
  unfold check_update_key at h
  split at h
  · exact absurd h (by simp)
  · exact h

theorem validate_update_batch_none_mem (live : ParamObj) (k : String)
    (v : JSValue) :
    ∀ l : ParamObj, validate_update_batch live l = none → (k, v) ∈ l →
      check_update_key live k v = none := by
  intro l
  induction l with
  | nil => intro _ hm; simp at hm
  | cons kv rest ih =>
    intro h hm
    unfold validate_update_batch at h
    obtain ⟨k1, v1⟩ := kv
    rcases hc : check_update_key live k1 v1 with _ | e
    · rw [hc] at h
      rcases List.mem_cons.mp hm with heq | hmem
      · obtain ⟨rfl, rfl⟩ := Prod.mk.injEq .. ▸ heq
        exact hc
      · exact ih h hmem
    · rw [hc] at h
      exact absurd h (by simp)

theorem validate_update_batch_some_of_bad (live : ParamObj) (k : String)
    (v : JSValue) :
    ∀ l : ParamObj, (k, v) ∈ l → check_update_key live k v ≠ none →
      ∃ e, validate_update_batch live l = some e := by
  intro l
  induction l with
  | nil => intro hm; simp at hm
  | cons kv rest ih =>
    intro hm hbad
    unfold validate_update_batch
    obtain ⟨k1, v1⟩ := kv
    rcases hc : check_update_key live k1 v1 with _ | e
    · rcases List.mem_cons.mp hm with heq | hmem
      · obtain ⟨rfl, rfl⟩ := Prod.mk.injEq .. ▸ heq
        exact absurd hc hbad
      · exact ih hmem hbad
    · exact ⟨e, rfl⟩

theorem run_set_options_ok (l : List (String × JSValue)) :
    ∀ live : ParamObj, (∀ kv ∈ l, validate_param_value kv.1 kv.2 = none) →
      run_set_options live l =
        (l, l.foldl (fun m kv => objSet m kv.1 kv.2) live, none) := by
  induction l with
  | nil => intro live _; rfl
  | cons kv rest ih =>
    intro live h
    have hkv : validate_param_value kv.1 kv.2 = none :=
      h kv (List.mem_cons_self kv rest)
    have hrest : ∀ kv1 ∈ rest, validate_param_value kv1.1 kv1.2 = none :=
      fun kv1 h1 => h kv1 (List.mem_cons_of_mem _ h1)
    unfold run_set_options
    rw [hkv, ih (objSet live kv.1 kv.2) hrest]
    simp

theorem run_set_options_err_none (l : List (String × JSValue)) :
    ∀ live : ParamObj, (run_set_options live l).2.2 = none →
      run_set_options live l =
        (l, l.foldl (fun m kv => objSet m kv.1 kv.2) live, none) := by
  induction l with
  | nil => intro live _; rfl
  | cons kv rest ih =>
    intro live h
    rcases hv : validate_param_value kv.1 kv.2 with _ | e
    · have h2 : (run_set_options (objSet live kv.1 kv.2) rest).2.2 = none := by
        unfold run_set_options at h
        rw [hv] at h
        exact h
      unfold run_set_options
      rw [hv, ih _ h2]
      simp
    · exfalso
      unfold run_set_options at h
      rw [hv] at h
      simp at h

theorem objHas_inject (u : ParamObj) (k : String)
    (h : k ≠ "UCI_LimitStrength") :
    objHas (inject_limit_strength u) k = objHas u k := by
  have hb : ("UCI_LimitStrength" == k) = false := by
    simp only [beq_eq_false_iff_ne, ne_eq]
    exact fun hx => h hx.symm
  unfold inject_limit_strength
  split
  · split
    · rw [objHas_objSet, hb, Bool.false_or]
    · split
      · rw [objHas_objSet, hb, Bool.false_or]
      · rfl
  · rfl

theorem mem_inject {kv : String × JSValue} (u : ParamObj)
    (h : kv ∈ inject_limit_strength u) :
    kv ∈ u ∨ ∃ b, kv = ("UCI_LimitStrength", JSValue.bool b) := by
  unfold inject_limit_strength at h
  split at h
  · split at h
    · rcases mem_objSet u _ _ h with h1 | h1
      · exact Or.inl h1
      · exact Or.inr ⟨false, h1⟩
    · split at h
      · rcases mem_objSet u _ _ h with h1 | h1
        · exact Or.inl h1
        · exact Or.inr ⟨true, h1⟩
      · exact Or.inl h
  · exact Or.inl h

theorem inject_eq_of_xor (u : ParamObj)
    (h1 : (objHas u "Skill Level" != objHas u "UCI_Elo") = true)
    (h2 : objHas u "UCI_LimitStrength" = false) :
    inject_limit_strength u =
      objSet u "UCI_LimitStrength" (JSValue.bool (objHas u "UCI_Elo")) := by
  unfold inject_limit_strength
  rw [h1, h2]
  simp only [Bool.not_false, Bool.and_true, if_true]
  rcases hS : objHas u "Skill Level" with _ | _ <;>
    rcases hE : objHas u "UCI_Elo" with _ | _ <;>
      rw [hS, hE] at h1 <;> simp_all

theorem reorder_eq (live p1 : ParamObj)
    (hT1 : objHas p1 "Threads" = true) :
    reorder_threads_hash live p1 =
      objDelete (objDelete p1 "Threads") "Hash"
      ++ [("Threads", objGetD p1 "Threads"),
          ("Hash",
            if objHas (objDelete p1 "Threads") "Hash" = true
            then objGetD (objDelete p1 "Threads") "Hash"
            else objGetD live "Hash")] := by
  unfold reorder_threads_hash
  rw [hT1]
  simp only [if_true]
  have hTd : objHas (objDelete p1 "Threads") "Threads" = false :=
    objHas_objDelete_self p1 "Threads"
  by_cases hH : objHas (objDelete p1 "Threads") "Hash" = true
  · rw [if_pos hH, if_pos hH]
    have hTdd : objHas (objDelete (objDelete p1 "Threads") "Hash")
        "Threads" = false := by
      rw [objHas_objDelete_ne _ _ _ (by decide)]
      exact hTd
    rw [objSet_append _ _ _ hTdd]
    have hHap : objHas (objDelete (objDelete p1 "Threads") "Hash"
        ++ [("Threads", objGetD p1 "Threads")]) "Hash" = false := by
      rw [objHas_append, objHas_objDelete_self]
      simp [objHas]
    rw [objSet_append _ _ _ hHap]
    simp
  · have hH' : objHas (objDelete p1 "Threads") "Hash" = false := by
      simpa using hH
    rw [if_neg hH, if_neg hH]
    rw [objDelete_of_not_has _ _ hH']
    rw [objSet_append _ _ _ hTd]
    have hHap : objHas (objDelete p1 "Threads"
        ++ [("Threads", objGetD p1 "Threads")]) "Hash" = false := by
      rw [objHas_append, hH']
      simp [objHas]
    rw [objSet_append _ _ _ hHap]
    simp

theorem keys_nodup_objDelete (o : ParamObj) (k : String)
    (h : (o.map Prod.fst).Nodup) :
    ((objDelete o k).map Prod.fst).Nodup :=
  ((List.filter_sublist o).map Prod.fst).nodup h

theorem not_mem_keys_objDelete_self (o : ParamObj) (k : String) :
    k ∉ (objDelete o k).map Prod.fst :=
  (objHas_eq_false_iff _ _).mp (objHas_objDelete_self o k)

theorem objGetD_foldl_not_mem (l : List (String × JSValue)) :
    ∀ (m : ParamObj) (k : String), (∀ kv ∈ l, kv.1 ≠ k) →
      objGetD (l.foldl (fun m kv => objSet m kv.1 kv.2) m) k = objGetD m k := by
  induction l with
  | nil => intro m k _; rfl
  | cons kv rest ih =>
    intro m k h
    rw [List.foldl_cons,
      ih (objSet m kv.1 kv.2) k (fun kv1 h1 => h kv1 (List.mem_cons_of_mem _ h1)),
      objGetD_objSet_ne _ _ _ _
        (fun hx => h kv (List.mem_cons_self kv rest) hx.symm)]

theorem objGetD_foldl_mem (l : List (String × JSValue)) :
    ∀ (m : ParamObj) (k : String) (v : JSValue),
      (l.map Prod.fst).Nodup → (k, v) ∈ l →
      objGetD (l.foldl (fun m kv => objSet m kv.1 kv.2) m) k = v := by
  induction l with
  | nil => intro m k v _ hm; simp at hm
  | cons kv rest ih =>
    intro m k v hnd hm
    have hnd1 := List.nodup_cons.mp (List.map_cons Prod.fst kv rest ▸ hnd)
    rcases List.mem_cons.mp hm with heq | hmem
    · obtain rfl : kv = (k, v) := heq.symm
      rw [List.foldl_cons]
      rw [objGetD_foldl_not_mem rest (objSet m k v) k ?h]
      · exact objGetD_objSet_self m k v
      case h =>
        intro kv1 h1 hx
        exact hnd1.1 (List.mem_map.mpr ⟨kv1, h1, hx⟩)
    · rw [List.foldl_cons]
      exact ih _ _ _ hnd1.2 hmem

/-- Under a successful batch validation, a write loop over the reordered
batch succeeds and the write sequence ends with `Threads` immediately
followed by `Hash`, after all the other keys. -/
theorem update_writes_keys (live batch : ParamObj)
    (hval : validate_update_batch live batch = none)
    (hT : objHas batch "Threads" = true)
    (hH : objHas batch "Hash" = true ∨
      validate_param_value "Hash" (objGetD live "Hash") = none) :
    (update_engine_parameters live batch).1.map Prod.fst =
      (objDelete (objDelete (inject_limit_strength batch) "Threads")
        "Hash").map Prod.fst ++ ["Threads", "Hash"]
    ∧ (update_engine_parameters live batch).2.2 = none := by
  have hT1 : objHas (inject_limit_strength batch) "Threads" = true := by
    rw [objHas_inject batch _ (by decide)]; exact hT
  have hval1 : ∀ kv ∈ inject_limit_strength batch,
      validate_param_value kv.1 kv.2 = none := by
    intro kv hkv
    rcases mem_inject batch hkv with h1 | ⟨b, rfl⟩
    · exact check_update_key_none_validate _ _ _
        (validate_update_batch_none_mem live kv.1 kv.2 batch hval
          (by simpa using h1))
    · cases b <;> decide
  have hHp1 : objHas (inject_limit_strength batch) "Hash"
      = objHas batch "Hash" := objHas_inject batch _ (by decide)
  have hHpT : objHas (objDelete (inject_limit_strength batch) "Threads")
      "Hash" = objHas batch "Hash" := by
    rw [objHas_objDelete_ne _ _ _ (by decide)]; exact hHp1
  have hvalid2 : ∀ kv ∈
      objDelete (objDelete (inject_limit_strength batch) "Threads") "Hash"
      ++ [("Threads", objGetD (inject_limit_strength batch) "Threads"),
          ("Hash",
            if objHas (objDelete (inject_limit_strength batch) "Threads")
                "Hash" = true
            then objGetD (objDelete (inject_limit_strength batch) "Threads")
              "Hash"
            else objGetD live "Hash")],
      validate_param_value kv.1 kv.2 = none := by
    intro kv hkv
    rcases List.mem_append.mp hkv with h1 | h1
    · exact hval1 kv (mem_objDelete _ _ (mem_objDelete _ _ h1))
    · rcases List.mem_cons.mp h1 with heq | h2
      · subst heq
        exact hval1 _ (objGetD_mem _ _ hT1)
      · have heq : kv = ("Hash",
            if objHas (objDelete (inject_limit_strength batch) "Threads")
                "Hash" = true
            then objGetD (objDelete (inject_limit_strength batch) "Threads")
              "Hash"
            else objGetD live "Hash") := by simpa using h2
        subst heq
        by_cases hHas : objHas
            (objDelete (inject_limit_strength batch) "Threads") "Hash" = true
        · rw [if_pos hHas]
          exact hval1 _ (mem_objDelete _ _ (objGetD_mem _ _ hHas))
        · rw [if_neg hHas]
          rcases hH with hH | hH
          · exact absurd (hHpT.trans hH) hHas
          · exact hH
  have hupd : update_engine_parameters live batch =
      run_set_options live
        (reorder_threads_hash live (inject_limit_strength batch)) := by
    unfold update_engine_parameters
    rw [hval]
  rw [hupd, reorder_eq live _ hT1, run_set_options_ok _ _ hvalid2]
  simp

/-- The write list of a successful update, when `Threads` is in the batch:
the other keys in batch order, then `Threads`, then `Hash`. -/
theorem update_writes_reordered (live batch : ParamObj)
    (hval : validate_update_batch live batch = none)
    (hT : objHas batch "Threads" = true)
    (hH : objHas batch "Hash" = true ∨
      validate_param_value "Hash" (objGetD live "Hash") = none) :
    (update_engine_parameters live batch).1.map Prod.fst =
      (objDelete (objDelete (inject_limit_strength batch) "Threads")
        "Hash").map Prod.fst ++ ["Threads", "Hash"] :=
  (update_writes_keys live batch hval hT hH).1

/-! ### Claim theorems: parameter updates -/

/-- C2: for every valid parameter-update batch containing both `Threads`
and `Hash`, the configuration write for `Threads` is sent to the worker
strictly before the configuration write for `Hash` (in fact both are moved
to the end of the write sequence, `Threads` immediately before `Hash`, and
neither key occurs earlier in the sequence). -/
theorem threads_written_before_hash (live batch : ParamObj)
    (hval : validate_update_batch live batch = none)
    (hT : objHas batch "Threads" = true)
    (hH : objHas batch "Hash" = true) :
    ∃ pre, (update_engine_parameters live batch).1.map Prod.fst
        = pre ++ ["Threads", "Hash"]
      ∧ "Threads" ∉ pre ∧ "Hash" ∉ pre := by
  refine ⟨(objDelete (objDelete (inject_limit_strength batch) "Threads")
      "Hash").map Prod.fst,
    update_writes_reordered live batch hval hT (Or.inl hH), ?_, ?_⟩
  · apply (objHas_eq_false_iff _ _).mp
    rw [objHas_objDelete_ne _ _ _ (by decide)]
    exact objHas_objDelete_self _ _
  · exact not_mem_keys_objDelete_self _ _

/-- Witness for C2: updating `Threads` and `Hash` together from the default
parameter set sends the Threads write strictly before the Hash write. -/
theorem threads_written_before_hash_witness :
    ∃ pre, (update_engine_parameters DEFAULT_STOCKFISH_PARAMS
        [("Threads", JSValue.num 2), ("Hash", JSValue.num 32)]).1.map
        Prod.fst = pre ++ ["Threads", "Hash"]
      ∧ "Threads" ∉ pre ∧ "Hash" ∉ pre :=
  threads_written_before_hash _ _ (by decide) (by decide) (by decide)

/-- C3 counterexample: in the batch `{MultiPV: 3, Threads: 2}` the write
sequence is `MultiPV`, `Threads`, `Hash` — `Threads` is not the first
configuration write even though it changes. -/
theorem threads_not_first_write_counterexample :
    ((update_engine_parameters DEFAULT_STOCKFISH_PARAMS
        [("MultiPV", JSValue.num 3), ("Threads", JSValue.num 2)]).1.map
      Prod.fst) = ["MultiPV", "Threads", "Hash"]
    ∧ ((update_engine_parameters DEFAULT_STOCKFISH_PARAMS
        [("MultiPV", JSValue.num 3), ("Threads", JSValue.num 2)]).1.map
      Prod.fst).head? ≠ some "Threads" := by
  constructor
  · decide
  · decide

/-- C3 (amended): when `Threads` is present in a valid batch, the write
sequence is reordered so that `Threads` and `Hash` are moved to the end —
the other keys of the batch are written first, in their original order,
then `Threads`, then `Hash` (`Hash`'s value read from the batch if
present, else from the live set); `Threads` is not the first write. -/
theorem threads_hash_moved_to_end (live batch : ParamObj)
    (hval : validate_update_batch live batch = none)
    (hT : objHas batch "Threads" = true)
    (hH : objHas batch "Hash" = true ∨
      validate_param_value "Hash" (objGetD live "Hash") = none) :
    (update_engine_parameters live batch).1.map Prod.fst =
      (objDelete (objDelete (inject_limit_strength batch) "Threads")
        "Hash").map Prod.fst ++ ["Threads", "Hash"] :=
  update_writes_reordered live batch hval hT hH

/-- Witness for C3 (amended): for the batch `{MultiPV: 3, Threads: 2}` the
write keys are the non-Threads keys followed by `Threads` then `Hash`. -/
theorem threads_hash_moved_to_end_witness :
    (update_engine_parameters DEFAULT_STOCKFISH_PARAMS
        [("MultiPV", JSValue.num 3), ("Threads", JSValue.num 2)]).1.map
      Prod.fst =
      (objDelete (objDelete (inject_limit_strength
          [("MultiPV", JSValue.num 3), ("Threads", JSValue.num 2)])
        "Threads") "Hash").map Prod.fst ++ ["Threads", "Hash"] :=
  threads_hash_moved_to_end _ _ (by decide) (by decide) (Or.inr (by decide))

/-- C4: a valid batch containing exactly one of `Skill Level` / `UCI_Elo`
and not containing `UCI_LimitStrength` behaves as if `UCI_LimitStrength`
had also been supplied — `false` when `Skill Level` was the supplied key,
`true` when `UCI_Elo` was; the resulting live parameter set holds that
value. -/
theorem limit_strength_inferred (live batch : ParamObj)
    (hnd : (batch.map Prod.fst).Nodup)
    (hxor : (objHas batch "Skill Level" != objHas batch "UCI_Elo") = true)
    (hnoLS : objHas batch "UCI_LimitStrength" = false)
    (herr : (update_engine_parameters live batch).2.2 = none) :
    objGetD (update_engine_parameters live batch).2.1 "UCI_LimitStrength"
      = JSValue.bool (objHas batch "UCI_Elo") := by
  rcases hvb : validate_update_batch live batch with _ | e
  · have hupd : update_engine_parameters live batch =
        run_set_options live
          (reorder_threads_hash live (inject_limit_strength batch)) := by
      unfold update_engine_parameters
      rw [hvb]
    rw [hupd] at herr ⊢
    have hp1app : inject_limit_strength batch =
        batch ++ [("UCI_LimitStrength",
          JSValue.bool (objHas batch "UCI_Elo"))] := by
      rw [inject_eq_of_xor batch hxor hnoLS]
      exact objSet_append _ _ _ hnoLS
    have hLSnotin : "UCI_LimitStrength" ∉ batch.map Prod.fst :=
      (objHas_eq_false_iff _ _).mp hnoLS
    have hnd1 : ((inject_limit_strength batch).map Prod.fst).Nodup := by
      rw [hp1app, List.map_append, List.nodup_append]
      refine ⟨hnd, List.nodup_singleton _, fun a ha hb => ?_⟩
      have : a = "UCI_LimitStrength" := by simpa using hb
      subst this
      exact hLSnotin ha
    have hmemLS : ("UCI_LimitStrength",
        JSValue.bool (objHas batch "UCI_Elo")) ∈ inject_limit_strength batch
        := by
      rw [hp1app]
      exact List.mem_append_right _ (List.mem_singleton_self _)
    by_cases hT1 : objHas (inject_limit_strength batch) "Threads" = true
    · rw [reorder_eq live _ hT1] at herr ⊢
      rw [run_set_options_err_none _ _ herr]
      apply objGetD_foldl_mem
      · rw [List.map_append, List.nodup_append]
        refine ⟨keys_nodup_objDelete _ _ (keys_nodup_objDelete _ _ hnd1),
          ?_, fun a ha hb => ?_⟩
        · exact List.nodup_cons.mpr ⟨by simp, List.nodup_singleton _⟩
        · have hab : a = "Threads" ∨ a = "Hash" := by simpa using hb
          rcases hab with rfl | rfl
          · have hTf : objHas (objDelete (objDelete
                (inject_limit_strength batch) "Threads") "Hash") "Threads"
                = false := by
              rw [objHas_objDelete_ne _ _ _ (by decide)]
              exact objHas_objDelete_self _ _
            exact (objHas_eq_false_iff _ _).mp hTf ha
          · exact not_mem_keys_objDelete_self _ _ ha
      · apply List.mem_append_left
        exact List.mem_filter.mpr
          ⟨List.mem_filter.mpr ⟨hmemLS, by simp⟩, by simp⟩
    · have hT1' : objHas (inject_limit_strength batch) "Threads" = false := by
        simpa using hT1
      have hre : reorder_threads_hash live (inject_limit_strength batch)
          = inject_limit_strength batch := by
        unfold reorder_threads_hash
        rw [hT1']
        simp
      rw [hre] at herr ⊢
      rw [run_set_options_err_none _ _ herr]
      exact objGetD_foldl_mem _ _ _ _ hnd1 hmemLS
  · exfalso
    unfold update_engine_parameters at herr
    rw [hvb] at herr
    simp at herr

/-- Witness for C4: updating only `UCI_Elo` from the default parameter set
leaves `UCI_LimitStrength = true` in the live parameter set. -/
theorem limit_strength_inferred_witness :
    objGetD (update_engine_parameters DEFAULT_STOCKFISH_PARAMS
        [("UCI_Elo", JSValue.num 2000)]).2.1 "UCI_LimitStrength"
      = JSValue.bool true :=
  limit_strength_inferred _ _ (by decide) (by decide) (by decide) (by decide)

/-- C5: a batch containing an unknown key (with the live set non-empty) or
a value violating its declared type or bounds makes
`update_engine_parameters` raise the corresponding validation error before
any configuration write, and the live parameter set is unchanged. -/
theorem validation_error_leaves_state_unchanged (live batch : ParamObj)
    (k : String) (v : JSValue) (hmem : (k, v) ∈ batch)
    (hbad : check_update_key live k v ≠ none) :
    ∃ e, update_engine_parameters live batch = ([], live, some e) := by
  obtain ⟨e, he⟩ := validate_update_batch_some_of_bad live k v batch hmem hbad
  refine ⟨e, ?_⟩
  unfold update_engine_parameters
  rw [he]

/-- Witness for C5: an unknown key in the batch produces an error, no
writes and an unchanged live set. -/
theorem validation_error_leaves_state_unchanged_witness :
    ∃ e, update_engine_parameters DEFAULT_STOCKFISH_PARAMS
        [("Bogus", JSValue.num 1)] = ([], DEFAULT_STOCKFISH_PARAMS, some e) :=
  validation_error_leaves_state_unchanged _ _ "Bogus" (JSValue.num 1)
    (by decide) (by decide)

/-! ### Claim theorems: moves, captures, evaluation, version -/

/-- C6: applying a move list containing an illegal move fails with an error
naming the first illegal move encountered; all moves before it stay
applied and the position is exactly the one reached just before the
failing move. -/
theorem make_moves_stops_at_first_illegal (ok : String → String → Bool)
    (play : String → String → String) (fen : String) (pre : List String)
    (m : String) (rest : List String)
    (hpre : legalPrefix ok play fen pre = true)
    (hm : ok (playAll play fen pre) m = false) :
    make_moves_from_current_position ok play fen (pre ++ m :: rest)
      = (playAll play fen pre, some ("Cannot make move: " ++ m)) := by
  induction pre generalizing fen with
  | nil =>
    simp only [List.nil_append]
    unfold make_moves_from_current_position
    rw [playAll] at hm
    simp only [List.foldl_nil] at hm
    rw [hm]
    simp [playAll]
  | cons p pre ih =>
    have hpre1 : ok fen p = true ∧ legalPrefix ok play (play fen p) pre
        = true := by simpa [legalPrefix] using hpre
    have hm1 : ok (playAll play (play fen p) pre) m = false := by
      rw [playAll] at hm ⊢
      simpa [List.foldl_cons] using hm
    simp only [List.cons_append]
    unfold make_moves_from_current_position
    rw [hpre1.1]
    simp only [if_true]
    rw [ih (play fen p) hpre1.2 hm1]
    rw [playAll, playAll, List.foldl_cons]

/-- Witness for C6: with a concrete legality oracle rejecting the move
`xx`, the batch `[e2e4, xx, e7e5]` fails naming `xx`, with `e2e4` still
applied. -/
theorem make_moves_stops_at_first_illegal_witness :
    make_moves_from_current_position (fun _ mv => !(mv == "xx"))
      (fun f mv => f ++ " " ++ mv) "startfen" (["e2e4"] ++ "xx" :: ["e7e5"])
      = ("startfen e2e4", some "Cannot make move: xx") :=
  make_moves_stops_at_first_illegal _ _ "startfen" ["e2e4"] "xx" ["e7e5"]
    (by decide) (by decide)

/-- C7 (code bug): under Chess960 rules a legal king-takes-own-rook
castling move (White king on e1 moving to the White rook on h1) is
classified as a direct capture by the code, because the
reference-equality `includes` test never fires; the intended
classification (the code's own comment, the ported test and the spec) is
no capture. -/
theorem chess960_castling_classified_as_direct_capture :
    will_move_be_a_capture true (some Piece.WHITE_KING)
        (some Piece.WHITE_ROOK) "e1h1"
        "rnbqkbnr/pppppppp/8/8/8/8/PPPPPPPP/RNBQK2R w KQkq - 0 1"
      = Capture.DIRECT_CAPTURE
    ∧ will_move_be_a_capture_intended true (some Piece.WHITE_KING)
        (some Piece.WHITE_ROOK) "e1h1"
        "rnbqkbnr/pppppppp/8/8/8/8/PPPPPPPP/RNBQK2R w KQkq - 0 1"
      = Capture.NO_CAPTURE :=
  ⟨rfl, rfl⟩

/-- C8 counterexample: with White to move (the starting position) and raw
score 50, flipping the perspective mode does not flip the sign — both
modes return +50. -/
theorem evaluation_sign_flip_counterexample :
    get_evaluation_value true STARTING_POSITION_FEN 50
      = get_evaluation_value false STARTING_POSITION_FEN 50
    ∧ get_evaluation_value true STARTING_POSITION_FEN 50
      ≠ -get_evaluation_value false STARTING_POSITION_FEN 50 := by
  constructor
  · decide
  · decide

/-- C8 (amended): the magnitude of the returned evaluation never changes
with the perspective mode, and flipping the mode flips the sign exactly
when the position's FEN lacks the side-to-move marker `w` (Black to
move); with White to move both modes agree. -/
theorem evaluation_sign_amended (turn_perspective : Bool) (fen : String)
    (raw : Int) :
    (get_evaluation_value turn_perspective fen raw).natAbs = raw.natAbs
    ∧ get_evaluation_value false fen raw =
        (if fen_includes_w fen then get_evaluation_value true fen raw
         else -get_evaluation_value true fen raw) := by
  unfold get_evaluation_value evaluation_perspective
  rcases hw : fen_includes_w fen with _ | _ <;>
    cases turn_perspective <;>
      simp [hw, Int.natAbs_neg]

/-- C9 (code bug): for the version token `17` (major only, no dot) the
parser yields `minor = NaN` (`parseInt` of the missing component), not
`minor = 0`: `parseInt` never throws, so the catch that would set `0` is
dead. -/
theorem parse_version_major_only_minor_nan :
    parse_stockfish_version "17"
      = some ⟨some 17, none, some "", some "", false, "17"⟩
    ∧ (parse_stockfish_version "17").map StockfishVersion.minor
      ≠ some (some 0) := by
  constructor
  · rfl
  · decide

/-! ### FEN validator lemmas -/

theorem jsIsSpace_eq_false_of_digit (c : Char) (h : jsIsDigit c = true) :
    jsIsSpace c = false := by
  have h1 : 48 ≤ c.toNat ∧ c.toNat ≤ 57 := by
    simpa [jsIsDigit] using h
  simp only [jsIsSpace, Bool.or_eq_false_iff, Bool.and_eq_false_iff,
    decide_eq_false_iff_not]
  omega

theorem takeWhile_all {p : Char → Bool} :
    ∀ l : List Char, (∀ c ∈ l, p c = true) → l.takeWhile p = l := by
  intro l
  induction l with
  | nil => intro _; rfl
  | cons c rest ih =>
    intro h
    rw [List.takeWhile_cons, h c (List.mem_cons_self _ _)]
    simp [ih fun d hd => h d (List.mem_cons_of_mem _ hd)]

theorem jsParseInt_of_digitString (s : String)
    (h : isDigitString s = true) :
    jsParseInt s = some (Int.ofNat (natOfDigits s.toList)) := by
  simp only [isDigitString, Bool.and_eq_true, Bool.not_eq_true'] at h
  obtain ⟨hne, hall⟩ := h
  have hne' : s.toList ≠ [] := by
    intro hx
    rw [hx] at hne
    simp at hne
  obtain ⟨c, rest, hl⟩ := List.exists_cons_of_ne_nil hne'
  have hallv : ∀ d ∈ s.toList, jsIsDigit d = true := List.all_eq_true.mp hall
  have hc : jsIsDigit c = true :=
    hallv c (by rw [hl]; exact List.mem_cons_self _ _)
  have h1 : jsIsSpace c = false := jsIsSpace_eq_false_of_digit c hc
  have h2 : ¬c = '-' := fun heq => absurd hc (by rw [heq]; decide)
  have h3 : ¬c = '+' := fun heq => absurd hc (by rw [heq]; decide)
  have h5 : (c :: rest).takeWhile jsIsDigit = c :: rest :=
    takeWhile_all _ fun d hd => hallv d (by rw [hl]; exact hd)
  unfold jsParseInt
  rw [hl, List.dropWhile_cons, h1]
  simp only [Bool.false_eq_true, if_false, List.head?_cons,
    Option.some.injEq, h2, h3, decide_False, Bool.or_self, if_false]
  cases rest with
  | nil =>
    simp [h5, natOfDigits]
  | cons d rest2 =>
    have hd : jsIsDigit d = true := by
      refine hallv d ?_
      rw [hl]
      exact List.mem_cons_of_mem _ (List.mem_cons_self _ _)
    have hdx : ¬d = 'x' := fun heq => absurd hd (by rw [heq]; decide)
    have hdX : ¬d = 'X' := fun heq => absurd hd (by rw [heq]; decide)
    simp only [List.tail_cons, List.head?_cons, Option.some.injEq, hdx, hdX,
      decide_False, Bool.or_self, Bool.and_false, Bool.false_eq_true,
      if_false]
    rw [h5]
    simp

theorem rank_scan_some :
    ∀ (l : List Char) (prev : Bool) (sum s : Nat),
      rank_scan l prev sum = some s →
      s = sum + squareCount l ∧ noAdjacentDigitsFrom prev l = true := by
  intro l
  induction l with
  | nil =>
    intro prev sum s h
    simp only [rank_scan, Option.some.injEq] at h
    simp [squareCount, noAdjacentDigitsFrom, h]
  | cons c rest ih =>
    intro prev sum s h
    simp only [rank_scan] at h
    rcases hc : isFenDigit c with _ | _
    · rw [hc] at h
      simp only [Bool.false_eq_true, if_false] at h
      rcases hp : isPieceChar c with _ | _
      · rw [hp] at h
        simp at h
      · rw [hp] at h
        simp only [if_true] at h
        obtain ⟨hs, hn⟩ := ih false (sum + 1) s h
        refine ⟨?_, ?_⟩
        · rw [hs]
          simp [squareCount, hc]
          omega
        · simpa [noAdjacentDigitsFrom, hc] using hn
    · rw [hc] at h
      simp only [if_true] at h
      rcases prev with _ | _
      · simp only [Bool.false_eq_true, if_false] at h
        obtain ⟨hs, hn⟩ := ih true (sum + (c.toNat - 48)) s h
        refine ⟨?_, ?_⟩
        · rw [hs]
          simp [squareCount, hc]
          omega
        · simpa [noAdjacentDigitsFrom, hc] using hn
      · simp at h

/-- C10: every string accepted by the static FEN syntax validator has
exactly six whitespace-separated fields; its board field has eight ranks,
each covering exactly eight squares with no two adjacent digits; both `K`
and `k` occur in the board field; the last two fields are decimal integer
strings; and the halfmove clock is strictly less than twice the fullmove
number. -/
theorem fen_syntax_valid_properties (fen : String)
    (h : is_fen_syntax_valid fen = true) :
    (jsSplitWs fen).length = 6
    ∧ (jsSplitOnChar ((jsSplitWs fen).getD 0 "") '/').length = 8
    ∧ (∀ rank ∈ jsSplitOnChar ((jsSplitWs fen).getD 0 "") '/',
        squareCount rank.toList = 8
        ∧ noAdjacentDigitsFrom false rank.toList = true)
    ∧ stringIncludesChar ((jsSplitWs fen).getD 0 "") 'K' = true
    ∧ stringIncludesChar ((jsSplitWs fen).getD 0 "") 'k' = true
    ∧ isDigitString ((jsSplitWs fen).getD 4 "") = true
    ∧ isDigitString ((jsSplitWs fen).getD 5 "") = true
    ∧ natOfDigits ((jsSplitWs fen).getD 4 "").toList
        < 2 * natOfDigits ((jsSplitWs fen).getD 5 "").toList := by
  unfold is_fen_syntax_valid at h
  rcases hr : fen_regex_match fen with _ | _
  · rw [hr] at h
    simp at h
  · rw [hr] at h
    simp only [Bool.not_true, Bool.false_eq_true, if_false] at h
    rcases hd : ((jsSplitWs fen).length != 6
        || (jsSplitOnChar ((jsSplitWs fen).getD 0 "") '/').length != 8
        || !stringIncludesChar ((jsSplitWs fen).getD 0 "") 'K'
        || !stringIncludesChar ((jsSplitWs fen).getD 0 "") 'k'
        || !isDigitString ((jsSplitWs fen).getD 4 "")
        || !isDigitString ((jsSplitWs fen).getD 5 "")
        || halfmoveGeTwiceFullmove ((jsSplitWs fen).getD 4 "")
            ((jsSplitWs fen).getD 5 "")) with _ | _
    · rw [hd] at h
      simp only [Bool.false_eq_true, if_false] at h
      simp only [Bool.or_eq_false_iff, bne_eq_false_iff_eq,
        Bool.not_eq_false] at hd
      obtain ⟨⟨⟨⟨⟨⟨h6, h8⟩, hK⟩, hk⟩, hd4⟩, hd5⟩, hge⟩ := hd
      replace hK : stringIncludesChar ((jsSplitWs fen).getD 0 "") 'K'
          = true := by simpa using hK
      replace hk : stringIncludesChar ((jsSplitWs fen).getD 0 "") 'k'
          = true := by simpa using hk
      replace hd4 : isDigitString ((jsSplitWs fen).getD 4 "") = true := by
        simpa using hd4
      replace hd5 : isDigitString ((jsSplitWs fen).getD 5 "") = true := by
        simpa using hd5
      refine ⟨h6, h8, ?_, hK, hk, hd4, hd5, ?_⟩
      · intro rank hrank
        have hok : rank_ok rank = true :=
          (List.all_eq_true.mp h) rank hrank
        unfold rank_ok at hok
        rcases hscan : rank_scan rank.toList false 0 with _ | sc
        · rw [hscan] at hok
          simp at hok
        · rw [hscan] at hok
          have h8' : sc = 8 := by simpa using hok
          obtain ⟨hs, hn⟩ := rank_scan_some rank.toList false 0 sc hscan
          subst h8'
          exact ⟨by omega, hn⟩
      · have hp4 := jsParseInt_of_digitString _ hd4
        have hp5 := jsParseInt_of_digitString _ hd5
        unfold halfmoveGeTwiceFullmove at hge
        rw [hp4, hp5] at hge
        simp only [decide_eq_false_iff_not, not_le, Int.ofNat_eq_coe] at hge
        omega
    · rw [hd] at h
      simp at h

/-- Witness for C10: the starting-position FEN is accepted and satisfies
all the stated shape properties. -/
theorem fen_syntax_valid_properties_witness :
    (jsSplitWs STARTING_POSITION_FEN).length = 6
    ∧ (jsSplitOnChar ((jsSplitWs STARTING_POSITION_FEN).getD 0 "")
        '/').length = 8
    ∧ (∀ rank ∈ jsSplitOnChar
          ((jsSplitWs STARTING_POSITION_FEN).getD 0 "") '/',
        squareCount rank.toList = 8
        ∧ noAdjacentDigitsFrom false rank.toList = true)
    ∧ stringIncludesChar ((jsSplitWs STARTING_POSITION_FEN).getD 0 "") 'K'
        = true
    ∧ stringIncludesChar ((jsSplitWs STARTING_POSITION_FEN).getD 0 "") 'k'
        = true
    ∧ isDigitString ((jsSplitWs STARTING_POSITION_FEN).getD 4 "") = true
    ∧ isDigitString ((jsSplitWs STARTING_POSITION_FEN).getD 5 "") = true
    ∧ natOfDigits ((jsSplitWs STARTING_POSITION_FEN).getD 4 "").toList
        < 2 * natOfDigits
            ((jsSplitWs STARTING_POSITION_FEN).getD 5 "").toList :=
  fen_syntax_valid_properties STARTING_POSITION_FEN (by decide)

end StockfishBun
